import Mathlib

/-!
Verification of the CampusNav presence-tracking ingestion path.

The definitions below are a shallow embedding of the repository's code:
- `campusnav-backend/services/locationService.js` (`upsertFacultyLocation`,
  `getFacultyLocation`),
- `campusnav-backend/services/mqttService.js` (`handleMessage`, the
  validation pipeline),
- `campusnav-backend/routes/scannerRoutes.js` (the POST /update validation),
- `campusnav-backend/esp32_firmware/CampusNavScanner/CampusNavScanner.ino`
  (the BLE scan callback, detection buffer and scan cycle).

JavaScript runtime values relevant to the validator (undefined, null,
strings, numbers, booleans) are modelled by `JVal`; MongoDB's
`findOneAndUpdate` with `upsert: true` on the unique key `facultyId` is
modelled by `storeUpsert` on a list of records; a fallible storage backend
is modelled by the `DbOutcome` parameter (`ok` = the write/read succeeds,
`fail msg` = the driver throws, which the code catches).
-/

namespace CampusNav

/-- Model of the JavaScript values the ingestion path inspects.
Number values are modelled as exact rationals: JavaScript numbers are IEEE
doubles (every finite double is a rational), and exact arithmetic abstracts
float rounding. NaN and the infinities arise only from coercion and are
represented in `JsNum` below. -/
inductive JVal where
  | undef : JVal
  | null : JVal
  | str : String → JVal
  | num : ℚ → JVal
  | bool : Bool → JVal
deriving DecidableEq, Repr

/-- JavaScript truthiness for the modelled values: `undefined`, `null`,
`""` and `0` are falsy. -/
def truthy : JVal → Bool
  | .undef => false
  | .null => false
  | .str s => decide (s ≠ "")
  | .num n => decide (n ≠ 0)
  | .bool b => b

/-- Model of `typeof x === "string"`. -/
def isString : JVal → Bool
  | .str _ => true
  | _ => false

/-- Model of `typeof x === "number"`. -/
def isNumber : JVal → Bool
  | .num _ => true
  | _ => false

/-- Model of JavaScript `String(x)` for the modelled values. An integer
number renders as its digit string exactly as in JS; for non-integral
rationals the rendering abstracts JS float formatting (no claim inspects
a stringified non-integral number). -/
def jsToString : JVal → String
  | .undef => "undefined"
  | .null => "null"
  | .str s => s
  | .num n => toString n
  | .bool b => if b then "true" else "false"

/-- Result of JavaScript number coercion: NaN, an infinity, or a finite
value (an exact rational abstracting the IEEE double). -/
inductive JsNum where
  | nan : JsNum
  | posInf : JsNum
  | negInf : JsNum
  | num : ℚ → JsNum
deriving DecidableEq, Repr

/-- The WhiteSpace and LineTerminator code points JavaScript strips in
`trim` and in string → number coercion: space, tab, LF, VT, FF, CR, NBSP,
Ogham space mark, the Zs spaces U+2000-200A, LS, PS, NNBSP, MMSP,
ideographic space and the BOM. -/
def jsIsWhite (c : Char) : Bool :=
  decide (c = ' ') || decide (c = '\t') || decide (c = '\n') || decide (c = '\r')
  || decide (c.toNat = 0xb) || decide (c.toNat = 0xc) || decide (c.toNat = 0xa0)
  || decide (c.toNat = 0x1680)
  || (decide (0x2000 ≤ c.toNat) && decide (c.toNat ≤ 0x200a))
  || decide (c.toNat = 0x2028) || decide (c.toNat = 0x2029) || decide (c.toNat = 0x202f)
  || decide (c.toNat = 0x205f) || decide (c.toNat = 0x3000) || decide (c.toNat = 0xfeff)

/-- Decimal value of a digit list (callers guarantee the digits). -/
def natOfDigits (cs : List Char) : Nat :=
  cs.foldl (fun n c => 10 * n + (c.toNat - 48)) 0

/-- Value of one hexadecimal digit, if it is one. -/
def hexDigitVal (c : Char) : Option Nat :=
  if decide ('0' ≤ c) && decide (c ≤ '9') then some (c.toNat - 48)
  else if decide ('a' ≤ c) && decide (c ≤ 'f') then some (c.toNat - 87)
  else if decide ('A' ≤ c) && decide (c ≤ 'F') then some (c.toNat - 55)
  else none

/-- Value of a nonempty digit list in the given radix (2, 8 or 16); `none`
if empty or any character is not a digit of that radix. -/
def radixVal (radix : Nat) (cs : List Char) : Option Nat :=
  match cs with
  | [] => none
  | _ => cs.foldl (fun acc c =>
      match acc, hexDigitVal c with
      | some n, some v => if v < radix then some (radix * n + v) else none
      | _, _ => none) (some 0)

/-- The exact value `m · 10^e` as a rational (the nonnegative-exponent
case is computed in ℕ so that concrete values reduce). -/
def decScale (m : Nat) (e : Int) : ℚ :=
  if 0 ≤ e then ((m * 10 ^ e.toNat : Nat) : ℚ)
  else (m : ℚ) / ((10 ^ (-e).toNat : Nat) : ℚ)

/-- Parse of the optional ExponentPart (`e`/`E`, optional sign, digits) of
the ECMAScript StrDecimalLiteral grammar; `some 0` when absent, `none`
when malformed. Must consume the whole remainder. -/
def parseExponent : List Char → Option Int
  | [] => some 0
  | c :: rest =>
      if c = 'e' ∨ c = 'E' then
        let sd : Bool × List Char :=
          match rest with
          | '+' :: ds => (false, ds)
          | '-' :: ds => (true, ds)
          | ds => (false, ds)
        if sd.2.isEmpty then none
        else if sd.2.all Char.isDigit then
          some (if sd.1 then -(natOfDigits sd.2 : Int) else (natOfDigits sd.2 : Int))
        else none
      else none

/-- Parse of the ECMAScript StrUnsignedDecimalLiteral (without the
`Infinity` alternative): `Digits [. Digits] [Exp]` or `. Digits [Exp]`,
valued exactly as `digits · 10^(exp − fractionLength)`. -/
def parseUnsignedDec (u : List Char) : Option ℚ :=
  match u.span Char.isDigit with
  | (ip, '.' :: rest2) =>
      match rest2.span Char.isDigit with
      | (fp, rest3) =>
          if ip.isEmpty && fp.isEmpty then none
          else
            match parseExponent rest3 with
            | none => none
            | some e => some (decScale (natOfDigits (ip ++ fp)) (e - (fp.length : Int)))
  | (ip, rest) =>
      if ip.isEmpty then none
      else
        match parseExponent rest with
        | none => none
        | some e => some (decScale (natOfDigits ip) e)

/-- A signed StrUnsignedDecimalLiteral: the literal `Infinity` or a
decimal literal, negated when a `-` sign preceded it; anything else is
NaN. -/
def decOrInf (u : List Char) (neg : Bool) : JsNum :=
  if u = "Infinity".data then (if neg then JsNum.negInf else JsNum.posInf)
  else
    match parseUnsignedDec u with
    | none => JsNum.nan
    | some q => JsNum.num (if neg then -q else q)

/-- A NonDecimalIntegerLiteral body in the given radix, or NaN. -/
def radixNum (radix : Nat) (ds : List Char) : JsNum :=
  match radixVal radix ds with
  | none => JsNum.nan
  | some n => JsNum.num n

/-- Model of JavaScript `Number(s)` on a string: the ECMAScript
StringNumericLiteral grammar. After stripping whitespace: empty coerces
to 0; an unsigned `0x`/`0o`/`0b` literal is parsed in its radix (a sign
in front of these yields NaN, as in JS); otherwise an optionally signed
`Infinity` or decimal literal with optional fraction and exponent;
anything else is NaN. -/
def parseJsNumber (s : String) : JsNum :=
  match ((s.data.dropWhile jsIsWhite).reverse.dropWhile jsIsWhite).reverse with
  | [] => JsNum.num 0
  | '+' :: u => decOrInf u false
  | '-' :: u => decOrInf u true
  | '0' :: c :: ds =>
      if c = 'x' ∨ c = 'X' then radixNum 16 ds
      else if c = 'o' ∨ c = 'O' then radixNum 8 ds
      else if c = 'b' ∨ c = 'B' then radixNum 2 ds
      else decOrInf ('0' :: c :: ds) false
  | u => decOrInf u false

/-- Model of JavaScript `Number(x)` (ToNumber) on the modelled values. -/
def jsNumber : JVal → JsNum
  | .undef => JsNum.nan
  | .null => JsNum.num 0
  | .str s => parseJsNumber s
  | .num q => JsNum.num q
  | .bool b => JsNum.num (if b then 1 else 0)

/-- Model of JavaScript `String.prototype.trim` (strips the same
whitespace set as number coercion). -/
def jsTrim (s : String) : String :=
  String.mk (((s.data.dropWhile jsIsWhite).reverse.dropWhile jsIsWhite).reverse)

/-- Prefix test on character lists (first argument is the candidate
prefix). -/
def charsStartWith : List Char → List Char → Bool
  | [], _ => true
  | _ :: _, [] => false
  | p :: ps, c :: cs => p == c && charsStartWith ps cs

/-- Model of `startsWith` on strings (receiver first, as in the source). -/
def strStartsWith (s pre : String) : Bool :=
  charsStartWith pre.data s.data

/-- Index of the first occurrence of a character in a list, if any. -/
def charIndexOf : List Char → Char → Option Nat
  | [], _ => none
  | c :: cs, ch => if c == ch then some 0 else (charIndexOf cs ch).map (· + 1)

/-- Model of `indexOf` for a single character (Arduino `String::indexOf`),
with `none` standing for the −1 "not found" result. -/
def strIndexOf (s : String) (c : Char) : Option Nat :=
  charIndexOf s.data c

/-- The validated detection handed to the Location Store
(`locationService.js` upsert payload). `rssi` is a rational: the MongoDB
schema stores a JS Number (a double), and the validator's `Number()`
coercion can produce fractional values. -/
structure Detection where
  facultyId : String
  tagId : Option String
  scannerId : String
  room : String
  rssi : ℚ
deriving DecidableEq, Repr

/-- One persisted document of the `facultyLocations` collection
(`models/facultylocation.js`), `facultyId` being the unique key. -/
structure LocationRecord where
  facultyId : String
  tagId : Option String
  scannerId : String
  room : String
  rssi : ℚ
  lastSeen : Nat
deriving DecidableEq, Repr

/-- The Location Store: the list of persisted records. -/
abbrev Store := List LocationRecord

/-- The document written by the `$set` clause of `findOneAndUpdate`:
all five fields from the detection plus `lastSeen := new Date()`. -/
def mkRecord (d : Detection) (now : Nat) : LocationRecord :=
  { facultyId := d.facultyId, tagId := d.tagId, scannerId := d.scannerId,
    room := d.room, rssi := d.rssi, lastSeen := now }

/-- Model of `FacultyLocation.findOneAndUpdate({facultyId}, {$set: ...},
{upsert: true})`: replace the (unique) record with the matching key, or
append a fresh one. -/
def storeUpsert : Store → Detection → Nat → Store
  | [], d, now => [mkRecord d now]
  | r :: rest, d, now =>
      if r.facultyId = d.facultyId then mkRecord d now :: rest
      else r :: storeUpsert rest d now

/-- Model of `FacultyLocation.findOne({facultyId})`. -/
def findOne : Store → String → Option LocationRecord
  | [], _ => none
  | r :: rest, fid => if r.facultyId = fid then some r else findOne rest fid

/-- Whether the underlying MongoDB operation succeeds or throws. -/
inductive DbOutcome where
  | ok : DbOutcome
  | fail : String → DbOutcome
deriving DecidableEq, Repr

/-- Shape of the object returned by `upsertFacultyLocation`. -/
structure UpsertResult where
  success : Bool
  updated : Bool
  location : Option LocationRecord
  error : Option String
deriving DecidableEq, Repr

/-- Model of `upsertFacultyLocation` (locationService.js lines 25-63):
on success the store is updated unconditionally and the updated document is
returned; a thrown storage error is caught and reported as
`{success: false, error}` with the store untouched. -/
def upsertFacultyLocation (db : DbOutcome) (st : Store) (d : Detection) (now : Nat) :
    UpsertResult × Store :=
  match db with
  | .ok =>
      ({ success := true, updated := true, location := some (mkRecord d now),
         error := none }, storeUpsert st d now)
  | .fail msg =>
      ({ success := false, updated := false, location := none,
         error := some msg }, st)

/-- Model of `getFacultyLocation` (locationService.js lines 71-78): a read
error is caught and `null` is returned. -/
def getFacultyLocation (db : DbOutcome) (st : Store) (facultyId : String) :
    Option LocationRecord :=
  match db with
  | .ok => findOne st facultyId
  | .fail _ => none

/-- An inbound wire message after JSON parsing, as destructured by
`handleMessage`: each field is a JS value, `undef` when absent. -/
structure RawMsg where
  facultyId : JVal
  tagId : JVal
  scannerId : JVal
  room : JVal
  rssi : JVal
deriving DecidableEq, Repr

/-- Model of the validation/sanitization pipeline of `handleMessage`
(mqttService.js lines 276-360, stages 2-3): `none` means the message is
rejected before any database access; `some d` is the sanitized detection
handed to `upsertFacultyLocation`. -/
def validateMqtt (m : RawMsg) : Option Detection :=
  if !truthy m.facultyId || !truthy m.room || decide (m.rssi = JVal.undef)
      || !truthy m.scannerId then none
  else if !isString m.facultyId || !isString m.room || !isString m.scannerId then none
  else
    let cleanFacultyId := jsTrim (jsToString m.facultyId)
    let cleanRoom := jsTrim (jsToString m.room)
    let cleanScannerId := jsTrim (jsToString m.scannerId)
    let cleanTagId := if truthy m.tagId then some (jsTrim (jsToString m.tagId)) else none
    -- `isNaN(numericRssi) || numericRssi < -120 || numericRssi > 0`: NaN fails
    -- the isNaN test, +Infinity fails `> 0` and -Infinity fails `< -120`, so
    -- every non-finite coercion takes the same rejection return.
    match jsNumber m.rssi with
    | JsNum.num n =>
        if n < -120 || 0 < n then none
        else if !strStartsWith cleanFacultyId "FAC_" then none
        else if !strStartsWith cleanScannerId "SC_" then none
        else some { facultyId := cleanFacultyId, tagId := cleanTagId,
                    scannerId := cleanScannerId, room := cleanRoom, rssi := n }
    | _ => none

/-- Model of `handleMessage` after JSON parsing: a rejected message leaves
the store untouched; an accepted one goes through the upsert (whose
failures are caught). -/
def handleMessage (db : DbOutcome) (st : Store) (m : RawMsg) (now : Nat) : Store :=
  match validateMqtt m with
  | none => st
  | some d => (upsertFacultyLocation db st d now).2

/-- Model of the `errors` array built by POST /api/scanner/update
(scannerRoutes.js lines 34-39). -/
def restErrors (m : RawMsg) : List String :=
  (if !truthy m.facultyId then ["facultyId is required"] else [])
  ++ (if !truthy m.scannerId then ["scannerId is required"] else [])
  ++ (if !truthy m.room then ["room is required"] else [])
  ++ (if decide (m.rssi = JVal.undef) || decide (m.rssi = JVal.null)
      then ["rssi is required"] else [])
  ++ (if !isNumber m.rssi then ["rssi must be a number"] else [])

/-- Model of the POST /api/scanner/update handler effect on the store
(scannerRoutes.js lines 29-80): with any validation error the request is
answered 400 before any database access; otherwise the fields are passed
through to the upsert unsanitized. -/
def restUpdate (db : DbOutcome) (st : Store) (m : RawMsg) (now : Nat) : Store :=
  if restErrors m = [] then
    match m.rssi with
    | JVal.num n =>
        (upsertFacultyLocation db st
          { facultyId := jsToString m.facultyId,
            tagId := if truthy m.tagId then some (jsToString m.tagId) else none,
            scannerId := jsToString m.scannerId,
            room := jsToString m.room, rssi := n } now).2
    | _ => st
  else st

/-- A whole ingestion history: each event is a storage outcome, a validated
detection and its processing time, applied through the upsert. -/
def processAll (st : Store) (evs : List (DbOutcome × Detection × Nat)) : Store :=
  evs.foldl (fun s e => (upsertFacultyLocation e.1 s e.2.1 e.2.2).2) st

/-- The conditions under which the MQTT validation pipeline actually
rejects a message: a falsy required field, an absent `rssi`, a non-string
`facultyId`/`room`/`scannerId`, an `rssi` whose `Number()` coercion is
NaN, an infinity, or a finite value out of the range [−120, 0], or a
trimmed `facultyId`/`scannerId` without the `FAC_`/`SC_` prefix. -/
def mqttRejectCause (m : RawMsg) : Prop :=
  truthy m.facultyId = false ∨ truthy m.room = false ∨ m.rssi = JVal.undef
  ∨ truthy m.scannerId = false
  ∨ isString m.facultyId = false ∨ isString m.room = false ∨ isString m.scannerId = false
  ∨ jsNumber m.rssi = JsNum.nan
  ∨ jsNumber m.rssi = JsNum.posInf
  ∨ jsNumber m.rssi = JsNum.negInf
  ∨ (∃ n, jsNumber m.rssi = JsNum.num n ∧ (n < -120 ∨ 0 < n))
  ∨ strStartsWith (jsTrim (jsToString m.facultyId)) "FAC_" = false
  ∨ strStartsWith (jsTrim (jsToString m.scannerId)) "SC_" = false

namespace Firmware

/-- Fixed capacity of the scanner's detection buffer
(`#define MAX_DETECTIONS 10`). -/
def MAX_DETECTIONS : Nat := 10

/-- One BLE advertisement as seen by `ScanCallbacks::onResult`: whether
manufacturer data is present, its payload (as the string the firmware
builds from it), and the received signal strength. -/
structure Advertisement where
  haveManufacturerData : Bool
  manufacturerData : String
  rssi : Int
deriving DecidableEq, Repr

/-- The firmware's `struct Detection` buffer entry. -/
structure Detection where
  facultyId : String
  tagId : String
  rssi : Int
deriving DecidableEq, Repr

/-- The duplicate-check loop of `onResult` (firmware lines 93-102): at the
entry whose `facultyId` matches, keep the stronger reading — on a strictly
higher RSSI overwrite both `rssi` and `tagId`, otherwise leave the entry
unchanged — and stop. -/
def updateFirst : List Detection → String → String → Int → List Detection
  | [], _, _, _ => []
  | d :: rest, facId, tagId, rssi =>
      if d.facultyId = facId then
        (if rssi > d.rssi then { d with tagId := tagId, rssi := rssi } else d) :: rest
      else d :: updateFirst rest facId tagId rssi

/-- The buffer step of `onResult` after payload parsing: update the already
buffered entry for this person if one exists, else append when below
capacity, else silently drop. -/
def insertDetection (buf : List Detection) (facId tagId : String) (rssi : Int) :
    List Detection :=
  if buf.any (fun d => d.facultyId == facId) then updateFirst buf facId tagId rssi
  else if buf.length < MAX_DETECTIONS then buf ++ [⟨facId, tagId, rssi⟩]
  else buf

/-- Model of `ScanCallbacks::onResult` (firmware lines 76-112): drop the
advertisement unless it has manufacturer data whose payload starts with
`FAC_` and contains the `|` separator; otherwise split the payload into
`facultyId` and `tagId` and run the buffer step. -/
def onResult (buf : List Detection) (device : Advertisement) : List Detection :=
  if !device.haveManufacturerData then buf
  else
    let payload := device.manufacturerData
    if !strStartsWith payload "FAC_" then buf
    else
      match strIndexOf payload '|' with
      | none => buf
      | some sep =>
          insertDetection buf (String.mk (payload.data.take sep))
            (String.mk (payload.data.drop (sep + 1))) device.rssi

/-- One scan cycle of `loop` (firmware lines 340-346): reset the buffer,
then feed every advertisement of the scan window to the callback. -/
def scanCycle (advs : List Advertisement) : List Detection :=
  advs.foldl onResult []

/-- The publish phase of `loop` (lines 399-405 with `publishDetection`):
each buffered entry is emitted as one wire detection carrying this
scanner's fixed identity and room. -/
def publishAll (scannerId room : String) (buf : List Detection) :
    List CampusNav.Detection :=
  buf.map (fun d => { facultyId := d.facultyId, tagId := some d.tagId,
                      scannerId := scannerId, room := room, rssi := (d.rssi : ℚ) })

/-- The detections emitted for one whole scan cycle. -/
def cycleDetections (scannerId room : String) (advs : List Advertisement) :
    List CampusNav.Detection :=
  publishAll scannerId room (scanCycle advs)

/-- The parsing part of `onResult` in isolation: the accepted
`(facultyId, tagId, rssi)` triple of an advertisement, or `none` when the
payload filter drops it. -/
def parseAdv (device : Advertisement) : Option (String × String × Int) :=
  if !device.haveManufacturerData then none
  else if !strStartsWith device.manufacturerData "FAC_" then none
  else
    match strIndexOf device.manufacturerData '|' with
    | none => none
    | some sep =>
        some (String.mk (device.manufacturerData.data.take sep),
          String.mk (device.manufacturerData.data.drop (sep + 1)), device.rssi)

/-- The accepted advertisements of a scan window, in order, as parsed
triples. -/
def events (advs : List Advertisement) : List (String × String × Int) :=
  advs.filterMap parseAdv

/-- The buffer step on a parsed triple. -/
def step (buf : List Detection) (e : String × String × Int) : List Detection :=
  insertDetection buf e.1 e.2.1 e.2.2

/-- The facultyIds held by a buffer, in buffer order. -/
def keys (buf : List Detection) : List String :=
  buf.map Detection.facultyId

/-- The buffered entry for a person, if any. -/
def findDet (buf : List Detection) (p : String) : Option Detection :=
  buf.find? (fun d => d.facultyId == p)

/-- Specification-side function: the distinct elements of a list in order
of first occurrence. -/
def firstKeys : List String → List String
  | [] => []
  | k :: ks => k :: (firstKeys ks).filter (fun x => x ≠ k)

/-- Specification-side function: the strongest-signal accumulation the
buffer performs for one person — starting from an initial entry, each
later event overwrites `tagId` and `rssi` exactly when its RSSI is
strictly higher. -/
def bestOf (d : Detection) (l : List (String × String × Int)) : Detection :=
  l.foldl (fun cur e => if e.2.2 > cur.rssi then { cur with tagId := e.2.1, rssi := e.2.2 } else cur) d

end Firmware

/-! ### Lemmas about the Location Store -/

theorem findOne_storeUpsert_self (st : Store) (d : Detection) (now : Nat) :
    findOne (storeUpsert st d now) d.facultyId = some (mkRecord d now) := by
  induction st with
  | nil => simp [storeUpsert, findOne, mkRecord]
  | cons r rest ih =>
      by_cases h : r.facultyId = d.facultyId
      · simp [storeUpsert, h, findOne, mkRecord]
      · simp [storeUpsert, h, findOne, ih]

theorem findOne_storeUpsert_ne (st : Store) (d : Detection) (now : Nat) (q : String)
    (h : q ≠ d.facultyId) :
    findOne (storeUpsert st d now) q = findOne st q := by
  have hdq : ¬ (d.facultyId = q) := fun hh => h hh.symm
  induction st with
  | nil => simp [storeUpsert, findOne, mkRecord, hdq]
  | cons r rest ih =>
      by_cases hc : r.facultyId = d.facultyId
      · have hrq : ¬ (r.facultyId = q) := by rw [hc]; exact hdq
        simp [storeUpsert, if_pos hc, findOne, mkRecord, hdq, hrq]
      · simp only [storeUpsert, if_neg hc]
        by_cases hq : r.facultyId = q
        · simp [findOne, hq]
        · simp [findOne, hq, ih]

theorem findOne_mem (st : Store) (q : String) (r : LocationRecord)
    (h : findOne st q = some r) : r ∈ st := by
  induction st with
  | nil => simp [findOne] at h
  | cons x rest ih =>
      by_cases hc : x.facultyId = q
      · simp [findOne, hc] at h
        simp [h.symm]
      · simp [findOne, hc] at h
        exact List.mem_cons_of_mem x (ih h)

theorem mem_map_storeUpsert (st : Store) (d : Detection) (now : Nat) (q : String) :
    q ∈ (storeUpsert st d now).map LocationRecord.facultyId ↔
      q ∈ st.map LocationRecord.facultyId ∨ q = d.facultyId := by
  induction st with
  | nil => simp [storeUpsert, mkRecord]
  | cons r rest ih =>
      by_cases hc : r.facultyId = d.facultyId
      · simp only [storeUpsert, if_pos hc, List.map_cons, List.mem_cons, mkRecord]
        constructor
        · rintro (h | h)
          · exact Or.inr h
          · exact Or.inl (Or.inr h)
        · rintro ((h | h) | h)
          · exact Or.inl (h.trans hc)
          · exact Or.inr h
          · exact Or.inl h
      · simp only [storeUpsert, if_neg hc, List.map_cons, List.mem_cons, ih]
        tauto

theorem nodup_storeUpsert (st : Store) (d : Detection) (now : Nat)
    (h : (st.map LocationRecord.facultyId).Nodup) :
    ((storeUpsert st d now).map LocationRecord.facultyId).Nodup := by
  induction st with
  | nil => simp [storeUpsert, mkRecord]
  | cons r rest ih =>
      simp only [List.map_cons, List.nodup_cons] at h
      obtain ⟨hr, hrest⟩ := h
      by_cases hc : r.facultyId = d.facultyId
      · simp only [storeUpsert, if_pos hc, List.map_cons, List.nodup_cons, mkRecord]
        exact ⟨hc ▸ hr, hrest⟩
      · simp only [storeUpsert, if_neg hc, List.map_cons, List.nodup_cons]
        refine ⟨?_, ih hrest⟩
        intro hmem
        rcases (mem_map_storeUpsert rest d now r.facultyId).mp hmem with h | h
        · exact hr h
        · exact hc h

theorem nodup_processAll (evs : List (DbOutcome × Detection × Nat)) :
    ∀ st : Store, (st.map LocationRecord.facultyId).Nodup →
      ((processAll st evs).map LocationRecord.facultyId).Nodup := by
  induction evs with
  | nil => intro st h; simpa [processAll] using h
  | cons e rest ih =>
      intro st h
      obtain ⟨db, d, t⟩ := e
      cases db with
      | ok =>
          simpa [processAll, upsertFacultyLocation] using
            ih (storeUpsert st d t) (nodup_storeUpsert st d t h)
      | fail msg =>
          simpa [processAll, upsertFacultyLocation] using ih st h

/-! ### Claim theorems for the Location Store -/

/-- C1: last-write-wins upsert — after two validated detections D1 then D2
for the same person are processed in order, the stored record carries
exactly D2's `tagId`, `scannerId`, `room` and `rssi`, with `lastSeen` set
to D2's processing time, regardless of the two RSSI magnitudes. -/
theorem upsert_last_write_wins (st : Store) (d1 d2 : Detection) (t1 t2 : Nat)
    (hsame : d1.facultyId = d2.facultyId) :
    findOne (upsertFacultyLocation DbOutcome.ok
        (upsertFacultyLocation DbOutcome.ok st d1 t1).2 d2 t2).2 d2.facultyId
      = some { facultyId := d2.facultyId, tagId := d2.tagId, scannerId := d2.scannerId,
               room := d2.room, rssi := d2.rssi, lastSeen := t2 } := by
  simpa [upsertFacultyLocation, mkRecord] using
    findOne_storeUpsert_self (storeUpsert st d1 t1) d2 t2

/-- Witness for C1: the spec scenario — D1 in room D103 at RSSI −55, then
D2 in room A201 at the weaker RSSI −80; the final record is D2's. -/
theorem upsert_last_write_wins_witness :
    findOne (upsertFacultyLocation DbOutcome.ok
        (upsertFacultyLocation DbOutcome.ok []
          { facultyId := "FAC_101", tagId := some "TAG_01", scannerId := "SC_D103",
            room := "D103", rssi := -55 } 1).2
        { facultyId := "FAC_101", tagId := some "TAG_01", scannerId := "SC_A201",
          room := "A201", rssi := -80 } 2).2 "FAC_101"
      = some { facultyId := "FAC_101", tagId := some "TAG_01", scannerId := "SC_A201",
               room := "A201", rssi := -80, lastSeen := 2 } :=
  upsert_last_write_wins []
    { facultyId := "FAC_101", tagId := some "TAG_01", scannerId := "SC_D103",
      room := "D103", rssi := -55 }
    { facultyId := "FAC_101", tagId := some "TAG_01", scannerId := "SC_A201",
      room := "A201", rssi := -80 } 1 2 rfl

/-- C4: per-person uniqueness — after any sequence of detections processed
through the upsert (with any interleaving of storage successes and
failures), the store holds at most one record per `facultyId`. -/
theorem location_store_unique_per_person (evs : List (DbOutcome × Detection × Nat))
    (pid : String) :
    ((processAll [] evs).map LocationRecord.facultyId).count pid ≤ 1 :=
  List.nodup_iff_count_le_one.mp (nodup_processAll evs [] (by simp)) pid

/-- C5: monotonic `lastSeen` — provided the processing clock has not gone
backwards past any stored stamp, a record present before and after a
successful upsert never moves to an older `lastSeen`. -/
theorem lastSeen_monotone (st : Store) (d : Detection) (now : Nat) (q : String)
    (r rNew : LocationRecord)
    (hclock : ∀ x ∈ st, x.lastSeen ≤ now)
    (hbefore : findOne st q = some r)
    (hafter : findOne (upsertFacultyLocation DbOutcome.ok st d now).2 q = some rNew) :
    r.lastSeen ≤ rNew.lastSeen := by
  simp only [upsertFacultyLocation] at hafter
  by_cases hq : q = d.facultyId
  · subst hq
    rw [findOne_storeUpsert_self] at hafter
    cases hafter
    simpa [mkRecord] using hclock r (findOne_mem st d.facultyId r hbefore)
  · rw [findOne_storeUpsert_ne st d now q hq, hbefore] at hafter
    cases hafter
    exact le_refl _

/-- Witness for C5: a record stamped at time 3 is re-upserted at time 5
and its `lastSeen` does not decrease. -/
theorem lastSeen_monotone_witness :
    LocationRecord.lastSeen
      { facultyId := "FAC_101", tagId := some "TAG_01", scannerId := "SC_D103",
        room := "D103", rssi := -55, lastSeen := 3 }
      ≤ LocationRecord.lastSeen
      { facultyId := "FAC_101", tagId := none, scannerId := "SC_A201",
        room := "A201", rssi := -80, lastSeen := 5 } :=
  lastSeen_monotone
    [{ facultyId := "FAC_101", tagId := some "TAG_01", scannerId := "SC_D103",
       room := "D103", rssi := -55, lastSeen := 3 }]
    { facultyId := "FAC_101", tagId := none, scannerId := "SC_A201",
      room := "A201", rssi := -80 } 5 "FAC_101"
    { facultyId := "FAC_101", tagId := some "TAG_01", scannerId := "SC_D103",
      room := "D103", rssi := -55, lastSeen := 3 }
    { facultyId := "FAC_101", tagId := none, scannerId := "SC_A201",
      room := "A201", rssi := -80, lastSeen := 5 }
    (by simp) (by rfl) (by rfl)

/-- C7: storage-failure atomicity — when the underlying write throws, the
caller gets `success: false` carrying the error message, the store is
unchanged, and the MQTT handler absorbs the failure without propagating
an exception (its result is the untouched store for any message). -/
theorem upsert_storage_failure_atomic (st : Store) (d : Detection) (now : Nat)
    (msg : String) (m : RawMsg) :
    (upsertFacultyLocation (DbOutcome.fail msg) st d now).1.success = false
    ∧ (upsertFacultyLocation (DbOutcome.fail msg) st d now).1.error = some msg
    ∧ (upsertFacultyLocation (DbOutcome.fail msg) st d now).2 = st
    ∧ handleMessage (DbOutcome.fail msg) st m now = st := by
  refine ⟨rfl, rfl, rfl, ?_⟩
  cases hv : validateMqtt m with
  | none => simp [handleMessage, hv]
  | some d2 => simp [handleMessage, hv, upsertFacultyLocation]

/-- C8 counterexample: a read error during `getFacultyLocation` — even on
a store that does hold a record for the person — returns exactly the same
`null` outcome as a lookup of an absent person, so the caller cannot
distinguish "temporarily unavailable" from NotFound. -/
theorem read_failure_indistinguishable_counterexample :
    getFacultyLocation (DbOutcome.fail "connection lost")
        [{ facultyId := "FAC_101", tagId := some "TAG_01", scannerId := "SC_D103",
           room := "D103", rssi := -55, lastSeen := 3 }] "FAC_101"
      = getFacultyLocation DbOutcome.ok [] "FAC_101" := rfl

/-- C8 amended: a storage read error during `getFacultyLocation` is caught
and surfaces as `null` — the very outcome NotFound produces — so read
failures are absorbed but NOT distinguishable from "no record exists". -/
theorem read_failure_returns_null (msg : String) (st : Store) (fid : String) :
    getFacultyLocation (DbOutcome.fail msg) st fid = none
    ∧ getFacultyLocation DbOutcome.ok [] fid = none :=
  ⟨rfl, rfl⟩

/-! ### Lemmas about the MQTT validation pipeline -/

theorem validateMqtt_accepts (m : RawMsg) (d : Detection)
    (h : validateMqtt m = some d) :
    truthy m.facultyId = true ∧ truthy m.room = true ∧ m.rssi ≠ JVal.undef
    ∧ truthy m.scannerId = true
    ∧ isString m.facultyId = true ∧ isString m.room = true ∧ isString m.scannerId = true
    ∧ ∃ n, jsNumber m.rssi = JsNum.num n ∧ -120 ≤ n ∧ n ≤ 0
      ∧ strStartsWith (jsTrim (jsToString m.facultyId)) "FAC_" = true
      ∧ strStartsWith (jsTrim (jsToString m.scannerId)) "SC_" = true := by
  unfold validateMqtt at h
  by_cases h1 : (!truthy m.facultyId || !truthy m.room || decide (m.rssi = JVal.undef)
      || !truthy m.scannerId) = true
  · rw [if_pos h1] at h; exact absurd h (by simp)
  · rw [if_neg h1] at h
    simp only [Bool.or_eq_true, not_or, Bool.not_eq_true, Bool.not_eq_false',
      decide_eq_false_iff_not] at h1
    obtain ⟨⟨⟨hfac, hroom⟩, hundef⟩, hscan⟩ := h1
    by_cases h2 : (!isString m.facultyId || !isString m.room || !isString m.scannerId) = true
    · rw [if_pos h2] at h; exact absurd h (by simp)
    · rw [if_neg h2] at h
      simp only [Bool.or_eq_true, not_or, Bool.not_eq_true, Bool.not_eq_false'] at h2
      obtain ⟨⟨hsfac, hsroom⟩, hsscan⟩ := h2
      cases hn : jsNumber m.rssi with
      | nan => rw [hn] at h; exact absurd h (by simp)
      | posInf => rw [hn] at h; exact absurd h (by simp)
      | negInf => rw [hn] at h; exact absurd h (by simp)
      | num n =>
          rw [hn] at h
          dsimp only at h
          by_cases h4 : (decide (n < -120) || decide (0 < n)) = true
          · rw [if_pos h4] at h; exact absurd h (by simp)
          · rw [if_neg h4] at h
            simp only [Bool.or_eq_true, not_or, Bool.not_eq_true,
              decide_eq_false_iff_not, not_lt] at h4
            by_cases h5 : (!strStartsWith (jsTrim (jsToString m.facultyId)) "FAC_") = true
            · rw [if_pos h5] at h; exact absurd h (by simp)
            · rw [if_neg h5] at h
              by_cases h6 : (!strStartsWith (jsTrim (jsToString m.scannerId)) "SC_") = true
              · rw [if_pos h6] at h; exact absurd h (by simp)
              · simp only [Bool.not_eq_true'] at h5 h6
                exact ⟨hfac, hroom, hundef, hscan, hsfac, hsroom, hsscan, n, rfl,
                  h4.1, h4.2, by simpa using h5, by simpa using h6⟩

theorem validateMqtt_rejected_of_cause (m : RawMsg) (hc : mqttRejectCause m) :
    validateMqtt m = none := by
  by_cases hv : validateMqtt m = none
  · exact hv
  · obtain ⟨d, hd⟩ := Option.ne_none_iff_exists'.mp hv
    obtain ⟨hfac, hroom, hundef, hscan, hsfac, hsroom, hsscan, n, hn, hlo, hhi,
      hpre1, hpre2⟩ := validateMqtt_accepts m d hd
    rcases hc with h | h | h | h | h | h | h | h | h | h | ⟨n2, hn2, hr⟩ | h | h
    · rw [hfac] at h; exact absurd h (by simp)
    · rw [hroom] at h; exact absurd h (by simp)
    · exact absurd h hundef
    · rw [hscan] at h; exact absurd h (by simp)
    · rw [hsfac] at h; exact absurd h (by simp)
    · rw [hsroom] at h; exact absurd h (by simp)
    · rw [hsscan] at h; exact absurd h (by simp)
    · rw [hn] at h; exact absurd h (by simp)
    · rw [hn] at h; exact absurd h (by simp)
    · rw [hn] at h; exact absurd h (by simp)
    · rw [hn] at hn2
      cases hn2
      rcases hr with hr | hr
      · exact absurd hlo (not_le.mpr hr)
      · exact absurd hhi (not_le.mpr hr)
    · rw [hpre1] at h; exact absurd h (by simp)
    · rw [hpre2] at h; exact absurd h (by simp)

/-! ### Claim theorems for the ingestion validators -/

/-- C2 counterexample: the wire message
`{facultyId:"FAC_101", tagId:null, scannerId:"SC_D103", room:"D103",
rssi:"-50"}` carries an `rssi` that is not numeric (it is a string), yet
the MQTT validation pipeline accepts it — `Number("-50")` coerces — and
the Location Store is changed, refuting "a message whose rssi is not
numeric is rejected and the store is left unchanged". -/
theorem ingestion_rejection_counterexample :
    isNumber (RawMsg.rssi
      { facultyId := JVal.str "FAC_101", tagId := JVal.null,
        scannerId := JVal.str "SC_D103", room := JVal.str "D103",
        rssi := JVal.str "-50" }) = false
    ∧ handleMessage DbOutcome.ok []
      { facultyId := JVal.str "FAC_101", tagId := JVal.null,
        scannerId := JVal.str "SC_D103", room := JVal.str "D103",
        rssi := JVal.str "-50" } 7 ≠ [] := by
  exact ⟨rfl, by decide⟩

/-- C2 amended: each ingestion path rejects — leaving the store
completely unchanged — exactly the conditions it actually checks. The
MQTT validator rejects a message with a missing/falsy required field, a
non-string `facultyId`/`room`/`scannerId`, an `rssi` whose `Number()`
coercion is NaN or outside [−120, 0], or a `facultyId`/`scannerId`
without the `FAC_`/`SC_` prefix (an `rssi` sent as a numeric string is
coerced and accepted). The REST /update route rejects only missing fields
and an `rssi` not of number type; it performs no range or prefix checks. -/
theorem ingestion_rejection_correct :
    (∀ (db : DbOutcome) (st : Store) (m : RawMsg) (now : Nat), mqttRejectCause m →
        validateMqtt m = none ∧ handleMessage db st m now = st)
    ∧ (∀ (db : DbOutcome) (st : Store) (m : RawMsg) (now : Nat), restErrors m ≠ [] →
        restUpdate db st m now = st)
    ∧ (∀ m : RawMsg, isNumber m.rssi = false → restErrors m ≠ []) := by
  refine ⟨fun db st m now hc => ?_, fun db st m now he => ?_, fun m h => ?_⟩
  · have hv := validateMqtt_rejected_of_cause m hc
    exact ⟨hv, by simp [handleMessage, hv]⟩
  · simp only [restUpdate, if_neg he]
  · intro heq
    have hmem : "rssi must be a number" ∈ restErrors m := by
      simp [restErrors, h]
    rw [heq] at hmem
    exact absurd hmem (by simp)

/-- Witness for the amended C2: a message with no `facultyId` is rejected
by the MQTT validator with no store change; a REST update whose `rssi` is
the string "-50" is rejected with no store change. -/
theorem ingestion_rejection_correct_witness :
    (validateMqtt
        { facultyId := JVal.undef, tagId := JVal.null,
          scannerId := JVal.str "SC_D103", room := JVal.str "D103",
          rssi := JVal.num (-55) } = none
      ∧ handleMessage DbOutcome.ok []
        { facultyId := JVal.undef, tagId := JVal.null,
          scannerId := JVal.str "SC_D103", room := JVal.str "D103",
          rssi := JVal.num (-55) } 7 = [])
    ∧ restUpdate DbOutcome.ok []
        { facultyId := JVal.str "FAC_101", tagId := JVal.null,
          scannerId := JVal.str "SC_D103", room := JVal.str "D103",
          rssi := JVal.str "-50" } 7 = []
    ∧ restErrors
        { facultyId := JVal.str "FAC_101", tagId := JVal.null,
          scannerId := JVal.str "SC_D103", room := JVal.str "D103",
          rssi := JVal.str "-50" } ≠ [] :=
  ⟨ingestion_rejection_correct.1 DbOutcome.ok [] _ 7 (Or.inl rfl),
   ingestion_rejection_correct.2.1 DbOutcome.ok [] _ 7 (by decide),
   ingestion_rejection_correct.2.2 _ rfl⟩

/-- Sanity of the `Number()` model at JS-coercible numeric strings: a hex
literal and an exponent form coerce to finite in-range values that the
validation pipeline accepts (the store changes), and a decimal-fraction
string coerces to the exact rational −50.5, not NaN. -/
theorem jsNumber_coercion_examples :
    handleMessage DbOutcome.ok []
      { facultyId := JVal.str "FAC_101", tagId := JVal.null,
        scannerId := JVal.str "SC_D103", room := JVal.str "D103",
        rssi := JVal.str "0x0" } 7 ≠ []
    ∧ handleMessage DbOutcome.ok []
      { facultyId := JVal.str "FAC_101", tagId := JVal.null,
        scannerId := JVal.str "SC_D103", room := JVal.str "D103",
        rssi := JVal.str "-5e1" } 7 ≠ []
    ∧ parseJsNumber "-50.5" = JsNum.num (-(101 / 2 : ℚ)) := by
  refine ⟨by decide, by decide, ?_⟩
  have h : parseJsNumber "-50.5" = JsNum.num (-(decScale 505 (-1))) := rfl
  rw [h]
  norm_num [decScale]

/-! ### Lemmas about the scanner firmware buffer -/

namespace Firmware

theorem onResult_eq_parse (buf : List Detection) (dev : Advertisement) :
    onResult buf dev = match parseAdv dev with
      | none => buf
      | some e => step buf e := by
  unfold onResult parseAdv step
  cases hb : dev.haveManufacturerData
  · simp
  · cases hp : strStartsWith dev.manufacturerData "FAC_"
    · simp [hp]
    · cases hs : strIndexOf dev.manufacturerData '|' <;> simp [hp, hs]

theorem scanCycle_eq_events (advs : List Advertisement) :
    ∀ buf : List Detection, advs.foldl onResult buf = (events advs).foldl step buf := by
  induction advs with
  | nil => intro buf; rfl
  | cons a rest ih =>
      intro buf
      rw [List.foldl_cons, onResult_eq_parse]
      cases hp : parseAdv a with
      | none =>
          simp only [events, List.filterMap_cons_none hp]
          exact ih buf
      | some e =>
          simp only [events, List.filterMap_cons_some hp, List.foldl_cons]
          exact ih (step buf e)

theorem findDet_nil (p : String) : findDet [] p = none := rfl

theorem findDet_cons (d : Detection) (rest : List Detection) (p : String) :
    findDet (d :: rest) p = if d.facultyId = p then some d else findDet rest p := by
  by_cases hd : d.facultyId = p
  · simp [findDet, List.find?_cons_of_pos, hd]
  · have : ((fun x : Detection => x.facultyId == p) d) = false := by simp [hd]
    simp [findDet, List.find?_cons_of_neg, this, hd]

theorem findDet_append (buf buf2 : List Detection) (p : String) :
    findDet (buf ++ buf2) p =
      match findDet buf p with
      | some d => some d
      | none => findDet buf2 p := by
  induction buf with
  | nil => simp [findDet_nil]
  | cons d rest ih =>
      by_cases hd : d.facultyId = p
      · simp [List.cons_append, findDet_cons, hd]
      · simp [List.cons_append, findDet_cons, hd, ih]

theorem findDet_eq_none_iff (buf : List Detection) (p : String) :
    findDet buf p = none ↔ p ∉ keys buf := by
  induction buf with
  | nil => simp [findDet_nil, keys]
  | cons d rest ih =>
      rw [findDet_cons]
      by_cases hd : d.facultyId = p
      · rw [if_pos hd]
        constructor
        · intro h; cases h
        · intro h
          exact absurd (by
            simp only [keys, List.map_cons, List.mem_cons]
            exact Or.inl hd.symm) h
      · rw [if_neg hd, ih]
        constructor
        · intro h
          simp only [keys, List.map_cons, List.mem_cons, not_or]
          exact ⟨fun hp => hd hp.symm, h⟩
        · intro h hmem
          exact h (by
            simp only [keys, List.map_cons, List.mem_cons]
            exact Or.inr hmem)

theorem findDet_some (buf : List Detection) (p : String) (d : Detection)
    (h : findDet buf p = some d) : d ∈ buf ∧ d.facultyId = p := by
  induction buf with
  | nil => simp [findDet_nil] at h
  | cons x rest ih =>
      by_cases hx : x.facultyId = p
      · rw [findDet_cons, if_pos hx] at h
        cases h
        exact ⟨List.mem_cons_self _ _, hx⟩
      · rw [findDet_cons, if_neg hx] at h
        obtain ⟨hmem, hfac⟩ := ih h
        exact ⟨List.mem_cons_of_mem x hmem, hfac⟩

theorem mem_keys_of_findDet (buf : List Detection) (p : String) (d : Detection)
    (h : findDet buf p = some d) : p ∈ keys buf := by
  obtain ⟨hmem, hfac⟩ := findDet_some buf p d h
  exact hfac ▸ List.mem_map_of_mem Detection.facultyId hmem

theorem any_eq_mem_keys (buf : List Detection) (p : String) :
    (buf.any (fun d => d.facultyId == p)) = true ↔ p ∈ keys buf := by
  simp [List.any_eq_true, keys, List.mem_map]

theorem keys_updateFirst (buf : List Detection) (f t : String) (r : Int) :
    keys (updateFirst buf f t r) = keys buf := by
  induction buf with
  | nil => rfl
  | cons d rest ih =>
      unfold updateFirst
      by_cases hd : d.facultyId = f
      · by_cases hr : r > d.rssi
        · rw [if_pos hd, if_pos hr]; rfl
        · rw [if_pos hd, if_neg hr]
      · rw [if_neg hd]
        simp only [keys, List.map_cons]
        exact congrArg (List.cons d.facultyId) ih

theorem findDet_updateFirst_self (buf : List Detection) (f t : String) (r : Int)
    (d0 : Detection) (h : findDet buf f = some d0) :
    findDet (updateFirst buf f t r) f =
      some (if r > d0.rssi then { d0 with tagId := t, rssi := r } else d0) := by
  induction buf with
  | nil => simp [findDet_nil] at h
  | cons d rest ih =>
      unfold updateFirst
      by_cases hd : d.facultyId = f
      · rw [findDet_cons, if_pos hd] at h
        cases h
        by_cases hr : r > d0.rssi
        · rw [if_pos hd, if_pos hr, findDet_cons]
          simp [hd, hr]
        · rw [if_pos hd, if_neg hr, findDet_cons]
          simp [hd, hr]
      · rw [findDet_cons, if_neg hd] at h
        rw [if_neg hd, findDet_cons, if_neg hd]
        exact ih h

theorem findDet_updateFirst_ne (buf : List Detection) (f t : String) (r : Int)
    (q : String) (hne : q ≠ f) :
    findDet (updateFirst buf f t r) q = findDet buf q := by
  induction buf with
  | nil => rfl
  | cons d rest ih =>
      unfold updateFirst
      by_cases hd : d.facultyId = f
      · have hdq : ¬ (d.facultyId = q) := fun hh => hne (hh.symm.trans hd)
        by_cases hr : r > d.rssi
        · rw [if_pos hd, if_pos hr, findDet_cons, findDet_cons, if_neg hdq]
          rw [if_neg (show ¬ (({ d with tagId := t, rssi := r } : Detection).facultyId = q) from hdq)]
        · rw [if_pos hd, if_neg hr]
      · by_cases hdq : d.facultyId = q
        · rw [if_neg hd, findDet_cons, findDet_cons, if_pos hdq, if_pos hdq]
        · rw [if_neg hd, findDet_cons, findDet_cons, if_neg hdq, if_neg hdq, ih]

theorem findDet_step_ne (buf : List Detection) (e : String × String × Int)
    (p : String) (hne : e.1 ≠ p) :
    findDet (step buf e) p = findDet buf p := by
  unfold step insertDetection
  by_cases hmem : (buf.any (fun d => d.facultyId == e.1)) = true
  · simp only [if_pos hmem]
    exact findDet_updateFirst_ne buf e.1 e.2.1 e.2.2 p (fun hh => hne hh.symm)
  · simp only [if_neg hmem]
    by_cases hlen : buf.length < MAX_DETECTIONS
    · simp only [if_pos hlen]
      rw [findDet_append]
      cases hf : findDet buf p with
      | some d => rfl
      | none =>
          have hx : ¬ ((Detection.mk e.1 e.2.1 e.2.2).facultyId = p) := hne
          simp [findDet_cons, findDet_nil, hx]
    · simp [if_neg hlen]

theorem bestOf_cons (d : Detection) (e : String × String × Int)
    (l : List (String × String × Int)) :
    bestOf d (e :: l) =
      bestOf (if e.2.2 > d.rssi then { d with tagId := e.2.1, rssi := e.2.2 } else d) l := rfl

theorem findDet_foldl_step (l : List (String × String × Int)) :
    ∀ (buf : List Detection) (p : String) (d0 : Detection),
      findDet buf p = some d0 →
      findDet (l.foldl step buf) p =
        some (bestOf d0 (l.filter (fun e => e.1 == p))) := by
  induction l with
  | nil =>
      intro buf p d0 h
      simpa [bestOf] using h
  | cons e rest ih =>
      intro buf p d0 h
      rw [List.foldl_cons]
      by_cases hep : e.1 = p
      · have hmem : p ∈ keys buf := mem_keys_of_findDet buf p d0 h
        have hany : (buf.any (fun d => d.facultyId == e.1)) = true := by
          rw [hep]; exact (any_eq_mem_keys buf p).mpr hmem
        have hstep : step buf e = updateFirst buf e.1 e.2.1 e.2.2 := by
          unfold step insertDetection; rw [if_pos hany]
        have hfd : findDet (updateFirst buf e.1 e.2.1 e.2.2) p =
            some (if e.2.2 > d0.rssi then { d0 with tagId := e.2.1, rssi := e.2.2 } else d0) := by
          rw [hep]
          exact findDet_updateFirst_self buf p e.2.1 e.2.2 d0 h
        rw [hstep, ih _ p _ hfd, List.filter_cons_of_pos (by simp [hep]), bestOf_cons]
      · have hpres : findDet (step buf e) p = findDet buf p := findDet_step_ne buf e p hep
        rw [ih _ p _ (hpres.trans h), List.filter_cons_of_neg (by simp [hep])]

theorem mem_firstKeys (l : List String) (x : String) : x ∈ firstKeys l ↔ x ∈ l := by
  induction l with
  | nil => simp [firstKeys]
  | cons k ks ih =>
      simp only [firstKeys, List.mem_cons, List.mem_filter, decide_eq_true_eq]
      constructor
      · rintro (h | ⟨h, _⟩)
        · exact Or.inl h
        · exact Or.inr (ih.mp h)
      · rintro (h | h)
        · exact Or.inl h
        · by_cases hx : x = k
          · exact Or.inl hx
          · exact Or.inr ⟨ih.mpr h, hx⟩

theorem nodup_firstKeys (l : List String) : (firstKeys l).Nodup := by
  induction l with
  | nil => simp [firstKeys]
  | cons k ks ih =>
      simp only [firstKeys, List.nodup_cons]
      refine ⟨?_, ih.filter _⟩
      intro hmem
      rcases List.mem_filter.mp hmem with ⟨_, hne⟩
      simp at hne

theorem keys_foldl_step (l : List (String × String × Int)) :
    ∀ buf : List Detection, buf.length ≤ MAX_DETECTIONS →
      keys (l.foldl step buf) =
        keys buf ++ ((firstKeys (l.map (fun e => e.1))).filter
          (fun k => k ∉ keys buf)).take (MAX_DETECTIONS - buf.length) := by
  induction l with
  | nil => intro buf h; simp [firstKeys]
  | cons e rest ih =>
      intro buf hlen
      rw [List.foldl_cons]
      by_cases hmem : e.1 ∈ keys buf
      · have hany : (buf.any (fun d => d.facultyId == e.1)) = true :=
          (any_eq_mem_keys buf e.1).mpr hmem
        have hstep : step buf e = updateFirst buf e.1 e.2.1 e.2.2 := by
          unfold step insertDetection; rw [if_pos hany]
        have hlenU : (updateFirst buf e.1 e.2.1 e.2.2).length = buf.length := by
          have h1 := congrArg List.length (keys_updateFirst buf e.1 e.2.1 e.2.2)
          simpa [keys] using h1
        rw [hstep, ih _ (by rw [hlenU]; exact hlen), keys_updateFirst, hlenU]
        congr 1
        simp only [List.map_cons, firstKeys]
        rw [List.filter_cons_of_neg (by simp [hmem]), List.filter_filter]
        congr 1
        apply List.filter_congr
        intro x hx
        by_cases hxe : x = e.1
        · subst hxe; simp [hmem]
        · simp [hxe]
      · by_cases hfull : buf.length < MAX_DETECTIONS
        · have hany : ¬ ((buf.any (fun d => d.facultyId == e.1)) = true) :=
            fun hh => hmem ((any_eq_mem_keys buf e.1).mp hh)
          have hstep : step buf e = buf ++ [⟨e.1, e.2.1, e.2.2⟩] := by
            unfold step insertDetection
            rw [if_neg hany, if_pos hfull]
          have hlen2 : (buf ++ [(⟨e.1, e.2.1, e.2.2⟩ : Detection)]).length ≤ MAX_DETECTIONS := by
            simp only [List.length_append, List.length_singleton]
            omega
          have hkeysapp : keys (buf ++ [(⟨e.1, e.2.1, e.2.2⟩ : Detection)]) = keys buf ++ [e.1] := by
            simp [keys]
          rw [hstep, ih _ hlen2, hkeysapp]
          simp only [List.map_cons, firstKeys, List.length_append, List.length_singleton]
          rw [List.filter_cons_of_pos (by simp [hmem]), List.filter_filter]
          obtain ⟨k, hk⟩ : ∃ k, MAX_DETECTIONS - buf.length = k + 1 :=
            ⟨MAX_DETECTIONS - buf.length - 1, by omega⟩
          rw [hk, List.take_succ_cons]
          have hk2 : MAX_DETECTIONS - (buf.length + 1) = k := by omega
          rw [hk2, List.append_assoc, List.singleton_append]
          refine congrArg (fun z => keys buf ++ e.1 :: List.take k z) ?_
          apply List.filter_congr
          intro x hx
          by_cases hxe : x = e.1
          · subst hxe; simp
          · by_cases hxk : x ∈ keys buf
            · simp [hxe, hxk]
            · simp [hxe, hxk]
        · have hfull2 : buf.length = MAX_DETECTIONS := by omega
          have hany : ¬ ((buf.any (fun d => d.facultyId == e.1)) = true) :=
            fun hh => hmem ((any_eq_mem_keys buf e.1).mp hh)
          have hstep : step buf e = buf := by
            unfold step insertDetection
            rw [if_neg hany, if_neg hfull]
          have h0 : MAX_DETECTIONS - buf.length = 0 := by omega
          rw [hstep, ih _ hlen, h0]
          simp

theorem keys_scanCycle (advs : List Advertisement) :
    keys (scanCycle advs) =
      (firstKeys ((events advs).map (fun e => e.1))).take MAX_DETECTIONS := by
  rw [scanCycle, scanCycle_eq_events advs []]
  rw [keys_foldl_step (events advs) [] (by simp [MAX_DETECTIONS])]
  simp [keys]

theorem nodup_keys_scanCycle (advs : List Advertisement) :
    (keys (scanCycle advs)).Nodup := by
  rw [keys_scanCycle]
  exact (List.take_sublist _ _).nodup (nodup_firstKeys _)

theorem length_scanCycle_le (advs : List Advertisement) :
    (scanCycle advs).length ≤ MAX_DETECTIONS := by
  have h := congrArg List.length (keys_scanCycle advs)
  simp only [keys, List.length_map] at h
  rw [h]
  exact le_trans (List.length_take _ _).le (by simp)

theorem le_foldl_max (l : List Int) : ∀ b : Int, b ≤ l.foldl max b := by
  induction l with
  | nil => intro b; exact le_refl b
  | cons c rest ih =>
      intro b
      rw [List.foldl_cons]
      exact le_trans (le_max_left b c) (ih (max b c))

theorem mem_le_foldl_max (l : List Int) : ∀ (b x : Int), x ∈ l → x ≤ l.foldl max b := by
  induction l with
  | nil => intro b x hx; simp at hx
  | cons c rest ih =>
      intro b x hx
      rw [List.foldl_cons]
      rcases List.mem_cons.mp hx with h | h
      · subst h; exact le_trans (le_max_right b x) (le_foldl_max rest _)
      · exact ih _ x h

theorem bestOf_first_max (l : List (String × String × Int)) :
    ∀ d : Detection,
      (d.rssi = (l.map (fun e => e.2.2)).foldl max d.rssi → bestOf d l = d)
      ∧ (d.rssi ≠ (l.map (fun e => e.2.2)).foldl max d.rssi →
          ∃ e, l.find? (fun x => x.2.2 == (l.map (fun e => e.2.2)).foldl max d.rssi) = some e
            ∧ bestOf d l = { facultyId := d.facultyId, tagId := e.2.1, rssi := e.2.2 }
            ∧ e.2.2 = (l.map (fun e => e.2.2)).foldl max d.rssi) := by
  induction l with
  | nil =>
      intro d
      exact ⟨fun _ => rfl, fun h => absurd rfl h⟩
  | cons e rest ih =>
      intro d
      simp only [List.map_cons, List.foldl_cons, bestOf_cons]
      by_cases he : e.2.2 > d.rssi
      · rw [if_pos he]
        have hmax : max d.rssi e.2.2 = e.2.2 := max_eq_right (le_of_lt he)
        rw [hmax]
        set dNew : Detection := { d with tagId := e.2.1, rssi := e.2.2 } with hdNew
        have hrNew : dNew.rssi = e.2.2 := rfl
        have hM : e.2.2 ≤ (rest.map (fun e => e.2.2)).foldl max e.2.2 :=
          le_foldl_max _ _
        constructor
        · intro hd
          exact absurd hd (by omega)
        · intro _
          rcases ih dNew with ⟨ih1, ih2⟩
          rw [hrNew] at ih1 ih2
          by_cases hd2 : e.2.2 = (rest.map (fun e => e.2.2)).foldl max e.2.2
          · refine ⟨e, ?_, ?_, ?_⟩
            · rw [List.find?_cons_of_pos _ (by simpa using hd2)]
            · rw [ih1 hd2]
            · exact hd2
          · obtain ⟨eStar, hfind, hbest, hrssi⟩ := ih2 hd2
            refine ⟨eStar, ?_, ?_, hrssi⟩
            · rw [List.find?_cons_of_neg _ (by simpa using hd2)]
              exact hfind
            · exact hbest
      · rw [if_neg he]
        have hle : e.2.2 ≤ d.rssi := le_of_not_lt he
        have hmax : max d.rssi e.2.2 = d.rssi := max_eq_left hle
        rw [hmax]
        rcases ih d with ⟨ih1, ih2⟩
        constructor
        · exact ih1
        · intro hd
          obtain ⟨eStar, hfind, hbest, hrssi⟩ := ih2 hd
          refine ⟨eStar, ?_, hbest, hrssi⟩
          have hne : ¬ (e.2.2 = (rest.map (fun e => e.2.2)).foldl max d.rssi) := by
            intro hh
            have := le_foldl_max (rest.map (fun e => e.2.2)) d.rssi
            omega
          rw [List.find?_cons_of_neg _ (by simpa using hne)]
          exact hfind

theorem dropWhile_head_not (q : (String × String × Int) → Bool) :
    ∀ (l : List (String × String × Int)) (a : String × String × Int)
      (l2 : List (String × String × Int)), l.dropWhile q = a :: l2 → q a = false := by
  intro l
  induction l with
  | nil => intro a l2 h; simp [List.dropWhile] at h
  | cons x xs ih =>
      intro a l2 h
      rw [List.dropWhile_cons] at h
      by_cases hq : q x = true
      · rw [if_pos hq] at h
        exact ih a l2 h
      · rw [if_neg hq] at h
        cases h
        exact Bool.not_eq_true _ ▸ hq

theorem cycle_person (advs : List Advertisement) (p : String)
    (hcap : (firstKeys ((events advs).map (fun e => e.1))).length ≤ MAX_DETECTIONS)
    (e0 : String × String × Int) (rest : List (String × String × Int))
    (hsplit : (events advs).filter (fun e => e.1 == p) = e0 :: rest) :
    findDet (scanCycle advs) p = some (bestOf ⟨p, e0.2.1, e0.2.2⟩ rest) := by
  have hdec : (events advs).takeWhile (fun e => !(e.1 == p))
      ++ (events advs).dropWhile (fun e => !(e.1 == p)) = events advs :=
    List.takeWhile_append_dropWhile ..
  have hne : (events advs).dropWhile (fun e => !(e.1 == p)) ≠ [] := by
    intro h0
    have hall := List.dropWhile_eq_nil_iff.mp h0
    have hflt : (events advs).filter (fun e => e.1 == p) = [] := by
      rw [List.filter_eq_nil_iff]
      intro a ha hpa
      have hqa := hall a ha
      simp only [Bool.not_eq_true'] at hqa
      rw [hqa] at hpa
      cases hpa
    rw [hflt] at hsplit
    cases hsplit
  obtain ⟨eh, l2, hdrop⟩ : ∃ eh l2,
      (events advs).dropWhile (fun e => !(e.1 == p)) = eh :: l2 := by
    cases hd : (events advs).dropWhile (fun e => !(e.1 == p)) with
    | nil => exact absurd hd hne
    | cons a b => exact ⟨a, b, rfl⟩
  have heh : eh.1 = p := by
    have hq := dropWhile_head_not (fun e => !(e.1 == p)) (events advs) eh l2 hdrop
    simp only [Bool.not_eq_false] at hq
    exact by simpa using hq
  have hfl1 : ((events advs).takeWhile (fun e => !(e.1 == p))).filter
      (fun e => e.1 == p) = [] := by
    rw [List.filter_eq_nil_iff]
    intro a ha hpa
    have hqa := List.mem_takeWhile_imp ha
    simp only [Bool.not_eq_true'] at hqa
    rw [hqa] at hpa
    cases hpa
  have hfilter2 : (events advs).filter (fun e => e.1 == p)
      = eh :: l2.filter (fun e => e.1 == p) := by
    conv_lhs => rw [← hdec, hdrop]
    rw [List.filter_append, hfl1, List.nil_append,
      List.filter_cons_of_pos (by simp [heh])]
  rw [hsplit] at hfilter2
  obtain ⟨he0, hrest⟩ : e0 = eh ∧ rest = l2.filter (fun e => e.1 == p) := by
    cases hfilter2
    exact ⟨rfl, rfl⟩
  have hkeys1 : keys (((events advs).takeWhile (fun e => !(e.1 == p))).foldl step []) =
      (firstKeys (((events advs).takeWhile (fun e => !(e.1 == p))).map
        (fun e => e.1))).take MAX_DETECTIONS := by
    rw [keys_foldl_step _ [] (by simp [MAX_DETECTIONS])]
    simp [keys]
  have hp_take : p ∉ ((events advs).takeWhile (fun e => !(e.1 == p))).map (fun e => e.1) := by
    intro hp3
    obtain ⟨a, ha, hap⟩ := List.mem_map.mp hp3
    have hqa := List.mem_takeWhile_imp ha
    simp only [Bool.not_eq_true'] at hqa
    rw [hap] at hqa
    simp at hqa
  have hpnot : p ∉ keys (((events advs).takeWhile (fun e => !(e.1 == p))).foldl step []) := by
    intro hp
    rw [hkeys1] at hp
    exact hp_take ((mem_firstKeys _ _).mp ((List.take_sublist _ _).subset hp))
  have hlen1 : (((events advs).takeWhile (fun e => !(e.1 == p))).foldl step []).length
      < MAX_DETECTIONS := by
    have h1 : (((events advs).takeWhile (fun e => !(e.1 == p))).foldl step []).length
        = (keys (((events advs).takeWhile (fun e => !(e.1 == p))).foldl step [])).length := by
      simp [keys]
    have h2 : (keys (((events advs).takeWhile (fun e => !(e.1 == p))).foldl step [])).length
        ≤ (firstKeys (((events advs).takeWhile (fun e => !(e.1 == p))).map
            (fun e => e.1))).length := by
      rw [hkeys1, List.length_take]
      exact min_le_right _ _
    have hnodup : (p :: firstKeys (((events advs).takeWhile (fun e => !(e.1 == p))).map
        (fun e => e.1))).Nodup := by
      rw [List.nodup_cons]
      exact ⟨fun hp2 => hp_take ((mem_firstKeys _ _).mp hp2), nodup_firstKeys _⟩
    have hsubset : (p :: firstKeys (((events advs).takeWhile (fun e => !(e.1 == p))).map
        (fun e => e.1))) ⊆ firstKeys ((events advs).map (fun e => e.1)) := by
      intro x hx
      rcases List.mem_cons.mp hx with hx | hx
      · subst hx
        rw [mem_firstKeys]
        have hehl : eh ∈ events advs := by
          rw [← hdec]
          exact List.mem_append_right _ (by rw [hdrop]; exact List.mem_cons_self _ _)
        exact List.mem_map.mpr ⟨eh, hehl, heh⟩
      · rw [mem_firstKeys] at hx ⊢
        obtain ⟨a, ha, hap⟩ := List.mem_map.mp hx
        have hal : a ∈ events advs := by
          rw [← hdec]
          exact List.mem_append_left _ ha
        exact List.mem_map.mpr ⟨a, hal, hap⟩
    have hsp := (List.subperm_of_subset hnodup hsubset).length_le
    simp only [List.length_cons] at hsp
    omega
  have hany : ¬ (((((events advs).takeWhile (fun e => !(e.1 == p))).foldl step []).any
      (fun d => d.facultyId == eh.1)) = true) := by
    rw [heh]
    exact fun hh => hpnot ((any_eq_mem_keys _ p).mp hh)
  have hstep : step (((events advs).takeWhile (fun e => !(e.1 == p))).foldl step []) eh
      = ((events advs).takeWhile (fun e => !(e.1 == p))).foldl step []
        ++ [⟨eh.1, eh.2.1, eh.2.2⟩] := by
    show insertDetection (((events advs).takeWhile (fun e => !(e.1 == p))).foldl step [])
      eh.1 eh.2.1 eh.2.2 = _
    unfold insertDetection
    rw [if_neg hany, if_pos hlen1]
  have hfd0 : findDet ((((events advs).takeWhile (fun e => !(e.1 == p))).foldl step [])
      ++ [(⟨eh.1, eh.2.1, eh.2.2⟩ : Detection)]) p = some ⟨eh.1, eh.2.1, eh.2.2⟩ := by
    rw [findDet_append, (findDet_eq_none_iff _ p).mpr hpnot, findDet_cons, if_pos heh]
  have hmain := findDet_foldl_step l2
    ((((events advs).takeWhile (fun e => !(e.1 == p))).foldl step [])
      ++ [(⟨eh.1, eh.2.1, eh.2.2⟩ : Detection)]) p ⟨eh.1, eh.2.1, eh.2.2⟩ hfd0
  have hcycle : scanCycle advs = l2.foldl step
      ((((events advs).takeWhile (fun e => !(e.1 == p))).foldl step [])
        ++ [(⟨eh.1, eh.2.1, eh.2.2⟩ : Detection)]) := by
    rw [scanCycle, scanCycle_eq_events]
    conv_lhs => rw [← hdec, hdrop]
    rw [List.foldl_append, List.foldl_cons, hstep]
  rw [hcycle, hmain, heh, he0, hrest]

theorem updateFirst_no_change (buf : List Detection) (f t : String) (r : Int)
    (d : Detection) (h : findDet buf f = some d) (hr : ¬ (r > d.rssi)) :
    updateFirst buf f t r = buf := by
  induction buf with
  | nil => rfl
  | cons x rest ih =>
      unfold updateFirst
      by_cases hx : x.facultyId = f
      · rw [findDet_cons, if_pos hx] at h
        cases h
        rw [if_pos hx, if_neg hr]
      · rw [findDet_cons, if_neg hx] at h
        rw [if_neg hx, ih h]

theorem filter_eq_singleton_of_findDet (buf : List Detection) (p : String) :
    ∀ d : Detection, (keys buf).Nodup → findDet buf p = some d →
      buf.filter (fun x => x.facultyId == p) = [d] := by
  induction buf with
  | nil => intro d _ h; simp [findDet_nil] at h
  | cons x rest ih =>
      intro d hnd h
      simp only [keys, List.map_cons, List.nodup_cons] at hnd
      by_cases hx : x.facultyId = p
      · rw [findDet_cons, if_pos hx] at h
        cases h
        rw [List.filter_cons_of_pos (by simp [hx])]
        have hrest : rest.filter (fun y => y.facultyId == p) = [] := by
          rw [List.filter_eq_nil_iff]
          intro a ha hpa
          have hap : a.facultyId = p := by simpa using hpa
          exact hnd.1 (by
            rw [hx, ← hap]
            exact List.mem_map_of_mem Detection.facultyId ha)
        rw [hrest]
      · rw [findDet_cons, if_neg hx] at h
        rw [List.filter_cons_of_neg (by simp [hx])]
        exact ih d hnd.2 h

/-! ### Claim theorems for the scanner firmware -/

/-- C9: payload filter — an advertisement contributes to the detection
buffer only if it has manufacturer data whose payload starts with `FAC_`
and contains the `|` separator; otherwise `onResult` leaves the buffer
exactly as it was. When accepted, the payload is split at the separator
into `facultyId` and `tagId` and handed to the buffer step. -/
theorem scanner_payload_filter (buf : List Detection) (adv : Advertisement) :
    ((adv.haveManufacturerData = false
        ∨ strStartsWith adv.manufacturerData "FAC_" = false
        ∨ strIndexOf adv.manufacturerData '|' = none) →
      onResult buf adv = buf)
    ∧ (∀ sep : Nat, adv.haveManufacturerData = true →
        strStartsWith adv.manufacturerData "FAC_" = true →
        strIndexOf adv.manufacturerData '|' = some sep →
        onResult buf adv = insertDetection buf
          (String.mk (adv.manufacturerData.data.take sep))
          (String.mk (adv.manufacturerData.data.drop (sep + 1))) adv.rssi) := by
  constructor
  · intro h
    unfold onResult
    dsimp only
    rcases h with h | h | h
    · rw [h]; simp
    · cases hb : adv.haveManufacturerData
      · simp
      · simp [h]
    · cases hb : adv.haveManufacturerData
      · simp
      · cases hpre : strStartsWith adv.manufacturerData "FAC_"
        · simp
        · simp [hpre, h]
  · intro sep h1 h2 h3
    unfold onResult
    dsimp only
    rw [h1, h2, h3]
    simp

/-- Witness for C9: an advertisement without the separator is dropped; a
well-formed tag payload is split and buffered. -/
theorem scanner_payload_filter_witness :
    onResult [] { haveManufacturerData := true, manufacturerData := "HELLO", rssi := -40 } = []
    ∧ onResult [] { haveManufacturerData := true, manufacturerData := "FAC_101|TAG_01", rssi := -40 }
        = insertDetection [] (String.mk ("FAC_101|TAG_01".data.take 7))
            (String.mk ("FAC_101|TAG_01".data.drop 8)) (-40) :=
  ⟨(scanner_payload_filter [] _).1 (Or.inr (Or.inl (by decide))),
   (scanner_payload_filter [] _).2 7 rfl (by decide) (by decide)⟩

/-- C3: scan-cycle deduplication — if the accepted advertisements of one
cycle involve at most the buffer capacity of distinct persons, then for
any person with N ≥ 1 accepted advertisements the scanner emits exactly
one detection for that person, carrying this scanner's identity and room,
an RSSI that equals the maximum of the person's advertised RSSIs, and the
tagId of an advertisement that attained that maximum. -/
theorem cycle_dedup (advs : List Advertisement) (scannerId room p : String)
    (hcap : (firstKeys ((events advs).map (fun e => e.1))).length ≤ MAX_DETECTIONS)
    (hne : (events advs).filter (fun e => e.1 == p) ≠ []) :
    ∃ (tag : String) (r : Int),
      (cycleDetections scannerId room advs).filter (fun d => d.facultyId == p)
        = [{ facultyId := p, tagId := some tag, scannerId := scannerId,
             room := room, rssi := r }]
      ∧ (∀ e ∈ (events advs).filter (fun e => e.1 == p), e.2.2 ≤ r)
      ∧ ∃ e ∈ (events advs).filter (fun e => e.1 == p), e.2.2 = r ∧ e.2.1 = tag := by
  obtain ⟨e0, rest, hsplit⟩ : ∃ e0 rest,
      (events advs).filter (fun e => e.1 == p) = e0 :: rest := by
    cases h : (events advs).filter (fun e => e.1 == p) with
    | nil => exact absurd h hne
    | cons a b => exact ⟨a, b, rfl⟩
  have hfd := cycle_person advs p hcap e0 rest hsplit
  have hone := filter_eq_singleton_of_findDet (scanCycle advs) p _
    (nodup_keys_scanCycle advs) hfd
  have hemit : (cycleDetections scannerId room advs).filter (fun d => d.facultyId == p)
      = [{ facultyId := (bestOf ⟨p, e0.2.1, e0.2.2⟩ rest).facultyId,
           tagId := some (bestOf ⟨p, e0.2.1, e0.2.2⟩ rest).tagId,
           scannerId := scannerId, room := room,
           rssi := (bestOf ⟨p, e0.2.1, e0.2.2⟩ rest).rssi }] := by
    unfold cycleDetections publishAll
    rw [List.filter_map]
    have hcomp : ((fun d : CampusNav.Detection => d.facultyId == p) ∘
        (fun d : Detection =>
          ({ facultyId := d.facultyId, tagId := some d.tagId, scannerId := scannerId,
             room := room, rssi := d.rssi } : CampusNav.Detection)))
        = fun x : Detection => x.facultyId == p := rfl
    rw [hcomp, hone]
    rfl
  rcases bestOf_first_max rest ⟨p, e0.2.1, e0.2.2⟩ with ⟨hcase1, hcase2⟩
  by_cases hM : (⟨p, e0.2.1, e0.2.2⟩ : Detection).rssi
      = (rest.map (fun e => e.2.2)).foldl max (⟨p, e0.2.1, e0.2.2⟩ : Detection).rssi
  · refine ⟨e0.2.1, e0.2.2, ?_, ?_, ?_⟩
    · rw [hemit, hcase1 hM]
    · intro e he
      rw [hsplit] at he
      rcases List.mem_cons.mp he with he | he
      · subst he; exact le_refl _
      · have := mem_le_foldl_max (rest.map (fun e => e.2.2)) e0.2.2 e.2.2
          (List.mem_map_of_mem _ he)
        have hM2 : (rest.map (fun e => e.2.2)).foldl max e0.2.2 = e0.2.2 := hM.symm
        rw [hM2] at this
        exact this
    · exact ⟨e0, by rw [hsplit]; exact List.mem_cons_self _ _, rfl, rfl⟩
  · obtain ⟨eStar, hfind, hbest, hrssi⟩ := hcase2 hM
    refine ⟨eStar.2.1, eStar.2.2, ?_, ?_, ?_⟩
    · rw [hemit, hbest]
    · intro e he
      rw [hsplit] at he
      rw [hrssi]
      rcases List.mem_cons.mp he with he | he
      · subst he
        exact le_foldl_max _ _
      · exact mem_le_foldl_max _ _ _ (List.mem_map_of_mem _ he)
    · refine ⟨eStar, ?_, rfl, rfl⟩
      rw [hsplit]
      exact List.mem_cons_of_mem e0 (List.mem_of_find?_eq_some hfind)

/-- Witness for C3: two advertisements for FAC_101 in one cycle with
RSSIs −70 then −50 — the cycle emits exactly one detection for FAC_101
whose RSSI −50 is the maximum. -/
theorem cycle_dedup_witness :
    ∃ (tag : String) (r : Int),
      (cycleDetections "SC_D103" "D103"
          [{ haveManufacturerData := true, manufacturerData := "FAC_101|TAG_01", rssi := -70 },
           { haveManufacturerData := true, manufacturerData := "FAC_101|TAG_02", rssi := -50 }]).filter
          (fun d => d.facultyId == "FAC_101")
        = [{ facultyId := "FAC_101", tagId := some tag, scannerId := "SC_D103",
             room := "D103", rssi := r }]
      ∧ (∀ e ∈ (events
          [{ haveManufacturerData := true, manufacturerData := "FAC_101|TAG_01", rssi := -70 },
           { haveManufacturerData := true, manufacturerData := "FAC_101|TAG_02", rssi := -50 }]).filter
            (fun e => e.1 == "FAC_101"), e.2.2 ≤ r)
      ∧ ∃ e ∈ (events
          [{ haveManufacturerData := true, manufacturerData := "FAC_101|TAG_01", rssi := -70 },
           { haveManufacturerData := true, manufacturerData := "FAC_101|TAG_02", rssi := -50 }]).filter
            (fun e => e.1 == "FAC_101"), e.2.2 = r ∧ e.2.1 = tag :=
  cycle_dedup
    [{ haveManufacturerData := true, manufacturerData := "FAC_101|TAG_01", rssi := -70 },
     { haveManufacturerData := true, manufacturerData := "FAC_101|TAG_02", rssi := -50 }]
    "SC_D103" "D103" "FAC_101" (by decide) (by decide)

/-- C10: RSSI tie-break — an advertisement for an already-buffered person
whose RSSI merely equals the buffered one leaves the buffer entry (and in
particular its tagId) unchanged; consequently the detection a cycle
produces for a person carries the rssi and tagId of the FIRST advert that
reached the maximal RSSI (`find?` returns the earliest match). -/
theorem cycle_tie_break :
    (∀ (buf : List Detection) (f t : String) (r : Int) (d : Detection),
        findDet buf f = some d → d.rssi = r → insertDetection buf f t r = buf)
    ∧ (∀ (advs : List Advertisement) (p : String),
        (firstKeys ((events advs).map (fun e => e.1))).length ≤ MAX_DETECTIONS →
        (events advs).filter (fun e => e.1 == p) ≠ [] →
        ∃ (d : Detection) (eStar : String × String × Int),
          findDet (scanCycle advs) p = some d
          ∧ ((events advs).filter (fun e => e.1 == p)).find?
              (fun e => e.2.2 == d.rssi) = some eStar
          ∧ d.tagId = eStar.2.1 ∧ d.rssi = eStar.2.2) := by
  constructor
  · intro buf f t r d hfd hr
    have hmem := mem_keys_of_findDet buf f d hfd
    unfold insertDetection
    rw [if_pos ((any_eq_mem_keys buf f).mpr hmem)]
    exact updateFirst_no_change buf f t r d hfd (by omega)
  · intro advs p hcap hne
    obtain ⟨e0, rest, hsplit⟩ : ∃ e0 rest,
        (events advs).filter (fun e => e.1 == p) = e0 :: rest := by
      cases h : (events advs).filter (fun e => e.1 == p) with
      | nil => exact absurd h hne
      | cons a b => exact ⟨a, b, rfl⟩
    have hfd := cycle_person advs p hcap e0 rest hsplit
    rcases bestOf_first_max rest ⟨p, e0.2.1, e0.2.2⟩ with ⟨hcase1, hcase2⟩
    by_cases hM : (⟨p, e0.2.1, e0.2.2⟩ : Detection).rssi
        = (rest.map (fun e => e.2.2)).foldl max (⟨p, e0.2.1, e0.2.2⟩ : Detection).rssi
    · refine ⟨⟨p, e0.2.1, e0.2.2⟩, e0, ?_, ?_, rfl, rfl⟩
      · rw [hfd, hcase1 hM]
      · rw [hsplit, List.find?_cons_of_pos _ (by simp)]
    · obtain ⟨eStar, hfind, hbest, hrssi⟩ := hcase2 hM
      refine ⟨⟨p, eStar.2.1, eStar.2.2⟩, eStar, ?_, ?_, rfl, rfl⟩
      · rw [hfd, hbest]
      · rw [hsplit]
        have hpred : (fun e : String × String × Int =>
            e.2.2 == (⟨p, eStar.2.1, eStar.2.2⟩ : Detection).rssi)
            = (fun e : String × String × Int =>
                e.2.2 == (rest.map (fun e => e.2.2)).foldl max
                  (⟨p, e0.2.1, e0.2.2⟩ : Detection).rssi) := by
          funext e
          rw [show (⟨p, eStar.2.1, eStar.2.2⟩ : Detection).rssi = eStar.2.2 from rfl, hrssi]
        rw [hpred, List.find?_cons_of_neg _ (by simpa using hM)]
        exact hfind

/-- Witness for C10: an equal-RSSI advertisement does not overwrite the
buffered tagId, and a cycle with two equal-strength adverts for FAC_101
(tags TAG_01 then TAG_02) emits TAG_01, the earliest maximum. -/
theorem cycle_tie_break_witness :
    insertDetection [{ facultyId := "FAC_101", tagId := "TAG_01", rssi := -50 }]
        "FAC_101" "TAG_09" (-50)
      = [{ facultyId := "FAC_101", tagId := "TAG_01", rssi := -50 }]
    ∧ ∃ (d : Detection) (eStar : String × String × Int),
        findDet (scanCycle
          [{ haveManufacturerData := true, manufacturerData := "FAC_101|TAG_01", rssi := -50 },
           { haveManufacturerData := true, manufacturerData := "FAC_101|TAG_02", rssi := -50 }])
          "FAC_101" = some d
        ∧ ((events
            [{ haveManufacturerData := true, manufacturerData := "FAC_101|TAG_01", rssi := -50 },
             { haveManufacturerData := true, manufacturerData := "FAC_101|TAG_02", rssi := -50 }]).filter
              (fun e => e.1 == "FAC_101")).find? (fun e => e.2.2 == d.rssi) = some eStar
        ∧ d.tagId = eStar.2.1 ∧ d.rssi = eStar.2.2 :=
  ⟨cycle_tie_break.1 [{ facultyId := "FAC_101", tagId := "TAG_01", rssi := -50 }]
      "FAC_101" "TAG_09" (-50) { facultyId := "FAC_101", tagId := "TAG_01", rssi := -50 }
      (by decide) rfl,
   cycle_tie_break.2
    [{ haveManufacturerData := true, manufacturerData := "FAC_101|TAG_01", rssi := -50 },
     { haveManufacturerData := true, manufacturerData := "FAC_101|TAG_02", rssi := -50 }]
    "FAC_101" (by decide) (by decide)⟩

/-- C6: buffer overflow safety — the detection buffer never exceeds its
fixed capacity of 10; when a cycle involves more than 10 distinct
persons, the buffer keeps exactly the first 10 distinct persons in
first-seen order and the cycle emits exactly 10 detections; a full buffer
still updates already-buffered persons and silently drops new ones. -/
theorem buffer_overflow_safe (advs : List Advertisement) :
    (scanCycle advs).length ≤ MAX_DETECTIONS
    ∧ ((firstKeys ((events advs).map (fun e => e.1))).length > MAX_DETECTIONS →
        keys (scanCycle advs)
          = (firstKeys ((events advs).map (fun e => e.1))).take MAX_DETECTIONS
        ∧ (scanCycle advs).length = MAX_DETECTIONS
        ∧ ∀ scannerId room : String,
            (cycleDetections scannerId room advs).length = MAX_DETECTIONS)
    ∧ (∀ (buf : List Detection) (f t : String) (r : Int),
        buf.length = MAX_DETECTIONS →
        (f ∈ keys buf → insertDetection buf f t r = updateFirst buf f t r)
        ∧ (f ∉ keys buf → insertDetection buf f t r = buf)) := by
  refine ⟨length_scanCycle_le advs, fun hgt => ?_, fun buf f t r hlen => ?_⟩
  · have hk := keys_scanCycle advs
    have hlen2 : (scanCycle advs).length = MAX_DETECTIONS := by
      have h1 := congrArg List.length hk
      simp only [keys, List.length_map, List.length_take] at h1
      rw [min_eq_left (le_of_lt hgt)] at h1
      exact h1
    refine ⟨hk, hlen2, fun sid room => ?_⟩
    unfold cycleDetections publishAll
    simp [hlen2]
  · constructor
    · intro hmem
      unfold insertDetection
      rw [if_pos ((any_eq_mem_keys buf f).mpr hmem)]
    · intro hmem
      unfold insertDetection
      rw [if_neg (fun hh => hmem ((any_eq_mem_keys buf f).mp hh)), if_neg (by omega)]

/-- Witness for C6: a cycle with 11 distinct persons fills the buffer to
exactly 10 entries, and the resulting full buffer silently drops a
further new person. -/
theorem buffer_overflow_safe_witness :
    (scanCycle
      [{ haveManufacturerData := true, manufacturerData := "FAC_A|T", rssi := -50 },
       { haveManufacturerData := true, manufacturerData := "FAC_B|T", rssi := -50 },
       { haveManufacturerData := true, manufacturerData := "FAC_C|T", rssi := -50 },
       { haveManufacturerData := true, manufacturerData := "FAC_D|T", rssi := -50 },
       { haveManufacturerData := true, manufacturerData := "FAC_E|T", rssi := -50 },
       { haveManufacturerData := true, manufacturerData := "FAC_F|T", rssi := -50 },
       { haveManufacturerData := true, manufacturerData := "FAC_G|T", rssi := -50 },
       { haveManufacturerData := true, manufacturerData := "FAC_H|T", rssi := -50 },
       { haveManufacturerData := true, manufacturerData := "FAC_I|T", rssi := -50 },
       { haveManufacturerData := true, manufacturerData := "FAC_J|T", rssi := -50 },
       { haveManufacturerData := true, manufacturerData := "FAC_K|T", rssi := -50 }]).length
      = MAX_DETECTIONS
    ∧ insertDetection
        [{ facultyId := "FAC_A", tagId := "T", rssi := -50 },
         { facultyId := "FAC_B", tagId := "T", rssi := -50 },
         { facultyId := "FAC_C", tagId := "T", rssi := -50 },
         { facultyId := "FAC_D", tagId := "T", rssi := -50 },
         { facultyId := "FAC_E", tagId := "T", rssi := -50 },
         { facultyId := "FAC_F", tagId := "T", rssi := -50 },
         { facultyId := "FAC_G", tagId := "T", rssi := -50 },
         { facultyId := "FAC_H", tagId := "T", rssi := -50 },
         { facultyId := "FAC_I", tagId := "T", rssi := -50 },
         { facultyId := "FAC_J", tagId := "T", rssi := -50 }]
        "FAC_K" "T" (-50)
      = [{ facultyId := "FAC_A", tagId := "T", rssi := -50 },
         { facultyId := "FAC_B", tagId := "T", rssi := -50 },
         { facultyId := "FAC_C", tagId := "T", rssi := -50 },
         { facultyId := "FAC_D", tagId := "T", rssi := -50 },
         { facultyId := "FAC_E", tagId := "T", rssi := -50 },
         { facultyId := "FAC_F", tagId := "T", rssi := -50 },
         { facultyId := "FAC_G", tagId := "T", rssi := -50 },
         { facultyId := "FAC_H", tagId := "T", rssi := -50 },
         { facultyId := "FAC_I", tagId := "T", rssi := -50 },
         { facultyId := "FAC_J", tagId := "T", rssi := -50 }] :=
  ⟨((buffer_overflow_safe
      [{ haveManufacturerData := true, manufacturerData := "FAC_A|T", rssi := -50 },
       { haveManufacturerData := true, manufacturerData := "FAC_B|T", rssi := -50 },
       { haveManufacturerData := true, manufacturerData := "FAC_C|T", rssi := -50 },
       { haveManufacturerData := true, manufacturerData := "FAC_D|T", rssi := -50 },
       { haveManufacturerData := true, manufacturerData := "FAC_E|T", rssi := -50 },
       { haveManufacturerData := true, manufacturerData := "FAC_F|T", rssi := -50 },
       { haveManufacturerData := true, manufacturerData := "FAC_G|T", rssi := -50 },
       { haveManufacturerData := true, manufacturerData := "FAC_H|T", rssi := -50 },
       { haveManufacturerData := true, manufacturerData := "FAC_I|T", rssi := -50 },
       { haveManufacturerData := true, manufacturerData := "FAC_J|T", rssi := -50 },
       { haveManufacturerData := true, manufacturerData := "FAC_K|T", rssi := -50 }]).2.1
      (by decide)).2.1,
   ((buffer_overflow_safe []).2.2
      [{ facultyId := "FAC_A", tagId := "T", rssi := -50 },
       { facultyId := "FAC_B", tagId := "T", rssi := -50 },
       { facultyId := "FAC_C", tagId := "T", rssi := -50 },
       { facultyId := "FAC_D", tagId := "T", rssi := -50 },
       { facultyId := "FAC_E", tagId := "T", rssi := -50 },
       { facultyId := "FAC_F", tagId := "T", rssi := -50 },
       { facultyId := "FAC_G", tagId := "T", rssi := -50 },
       { facultyId := "FAC_H", tagId := "T", rssi := -50 },
       { facultyId := "FAC_I", tagId := "T", rssi := -50 },
       { facultyId := "FAC_J", tagId := "T", rssi := -50 }]
      "FAC_K" "T" (-50) (by decide)).2 (by decide)⟩

end Firmware

end CampusNav
